import Mathlib

/-!
Verification model of the egoengine video-processing scripts.

The repository contains two per-frame color transforms and two batch
drivers:

* `color.py` — gray-world power-mean channel equalization (`color_fix`)
  applied frame by frame with an in-place overwrite flow (`process_one`);
* `exp/tune_video.py` — exposure / per-channel gain / contrast / gamma
  pipeline (`apply_adjust`) driven by a bounded frame loop;
* `make_teaser.py` — mosaic composition: even cell size computation and
  the xstack command builder (`build_xstack`).

Frames are modelled as lists of rows of pixels; a pixel is a triple of
8-bit samples in the source's memory order, i.e. (B, G, R).  All float
arithmetic of the scripts is modelled over the exact reals.
-/

/-- One pixel in memory order (channel 0, channel 1, channel 2) =
(B, G, R), as in the OpenCV buffers the scripts process. -/
abbrev Pixel := ℕ × ℕ × ℕ

/-- One frame: rows of pixels. -/
abbrev Frame := List (List Pixel)

/-- All pixels of a frame (the scripts' reductions over axes (0,1)). -/
def pixels (im : Frame) : List Pixel := im.flatten

/-- Number of pixels of a frame. -/
def pixCount (im : Frame) : ℕ := (pixels im).length

/-- `np.clip(x, lo, hi)` = `min (max x lo) hi`. -/
noncomputable def clip (x lo hi : ℝ) : ℝ := min (max x lo) hi

/-- `astype('uint8')` applied to a value already clipped into [0, 255]:
truncation toward zero, i.e. the natural floor. -/
noncomputable def to_u8 (x : ℝ) : ℕ := ⌊x⌋₊

/-- Cast a stored pixel to float, as `im.astype('float32')` does. -/
def castPx (px : Pixel) : ℝ × ℝ × ℝ := ((px.1 : ℝ), (px.2.1 : ℝ), (px.2.2 : ℝ))

/-! ## color.py : gray-world equalization (`color_fix`, lines 23-33) -/

/-- Per-channel generalized power mean term of `color_fix`
(`color.py` line 28): `m_c = ((imf ** 6).mean(axis=(0,1)) + 1e-6) ** (1/6)`
for the channel selected by `ch`. -/
noncomputable def gray_m (im : Frame) (ch : Pixel → ℕ) : ℝ :=
  ((((pixels im).map (fun px => ((ch px : ℕ) : ℝ) ^ (6 : ℝ))).sum / (pixCount im : ℝ))
      + 1e-6) ^ ((1 : ℝ) / 6)

/-- Per-channel scale of `color_fix` (`color.py` line 29):
`scale = m.mean() / (m + eps)`. -/
noncomputable def gray_scale (im : Frame) (ch : Pixel → ℕ) : ℝ :=
  ((gray_m im (fun q => q.1) + gray_m im (fun q => q.2.1) + gray_m im (fun q => q.2.2)) / 3)
    / (gray_m im ch + 1e-6)

/-- `color_fix` (`color.py` lines 23-33): scale each channel toward the
common gray target, clip to [0,255] (the source clips twice), truncate
to 8 bits. -/
noncomputable def color_fix (im : Frame) : Frame :=
  im.map (List.map (fun px =>
    (to_u8 (clip (clip ((px.1 : ℝ) * gray_scale im (fun q => q.1)) 0 255) 0 255),
     to_u8 (clip (clip ((px.2.1 : ℝ) * gray_scale im (fun q => q.2.1)) 0 255) 0 255),
     to_u8 (clip (clip ((px.2.2 : ℝ) * gray_scale im (fun q => q.2.2)) 0 255) 0 255))))

/-- The gray-world transform as the spec words it (spec section 4.1):
`m_c = (mean_over_pixels(pixel_c ^ power) + epsilon) ^ (1/power)` with
`power = 6`, `epsilon = 1e-6`. -/
noncomputable def spec_m (im : Frame) (ch : Pixel → ℕ) : ℝ :=
  ((((pixels im).map (fun px => ((ch px : ℕ) : ℝ) ^ (6 : ℝ))).sum / (pixCount im : ℝ))
      + 1e-6) ^ ((1 : ℝ) / 6)

/-- Spec section 4.1: `target = mean(m_c over channels)`. -/
noncomputable def spec_target (im : Frame) : ℝ :=
  (spec_m im (fun q => q.1) + spec_m im (fun q => q.2.1) + spec_m im (fun q => q.2.2)) / 3

/-- Spec section 4.1: `s_c = target / (m_c + epsilon)`. -/
noncomputable def spec_scale (im : Frame) (ch : Pixel → ℕ) : ℝ :=
  spec_target im / (spec_m im ch + 1e-6)

/-- The spec's wording of the whole gray-world transform: output sample
= `clip(input_sample * s_c, 0, 255)` truncated to 8-bit (one clip). -/
noncomputable def color_fix_spec (im : Frame) : Frame :=
  im.map (List.map (fun px =>
    (to_u8 (clip ((px.1 : ℝ) * spec_scale im (fun q => q.1)) 0 255),
     to_u8 (clip ((px.2.1 : ℝ) * spec_scale im (fun q => q.2.1)) 0 255),
     to_u8 (clip ((px.2.2 : ℝ) * spec_scale im (fun q => q.2.2)) 0 255))))

/-! ## exp/tune_video.py : exposure/gain/contrast/gamma (`apply_adjust`) -/

/-- Step 1 of `apply_adjust`: `img *= exposure`. -/
noncomputable def exposure_step (exposure : ℝ) (v : ℝ × ℝ × ℝ) : ℝ × ℝ × ℝ :=
  (v.1 * exposure, v.2.1 * exposure, v.2.2 * exposure)

/-- Step 2 of `apply_adjust`: per-channel gains; the user-facing tuple is
(R, G, B) and the buffer is (B, G, R), so channel 0 gets `b_gain`,
channel 1 `g_gain`, channel 2 `r_gain`. -/
noncomputable def gains_step (gains : ℝ × ℝ × ℝ) (v : ℝ × ℝ × ℝ) : ℝ × ℝ × ℝ :=
  (v.1 * gains.2.2, v.2.1 * gains.2.1, v.2.2 * gains.1)

/-- Step 3 of `apply_adjust`: contrast around mid-gray 128, skipped when
`contrast == 1.0`. -/
noncomputable def contrast_step (contrast : ℝ) (v : ℝ × ℝ × ℝ) : ℝ × ℝ × ℝ :=
  if contrast = 1 then v
  else (128 + (v.1 - 128) * contrast, 128 + (v.2.1 - 128) * contrast,
        128 + (v.2.2 - 128) * contrast)

/-- The gamma map of step 4: clip to [0,255], normalize, raise to the
power `1/gamma`, rescale. -/
noncomputable def gamma_map (gamma x : ℝ) : ℝ :=
  (clip x 0 255 / 255) ^ ((1 : ℝ) / gamma) * 255

/-- Step 4 of `apply_adjust`: gamma correction, skipped when
`gamma == 1.0`. -/
noncomputable def gamma_step (gamma : ℝ) (v : ℝ × ℝ × ℝ) : ℝ × ℝ × ℝ :=
  if gamma = 1 then v
  else (gamma_map gamma v.1, gamma_map gamma v.2.1, gamma_map gamma v.2.2)

/-- Final step of `apply_adjust`: `np.clip(img, 0, 255).astype(np.uint8)`. -/
noncomputable def clip_step (v : ℝ × ℝ × ℝ) : Pixel :=
  (to_u8 (clip v.1 0 255), to_u8 (clip v.2.1 0 255), to_u8 (clip v.2.2 0 255))

/-- `apply_adjust` on one pixel: the four steps in source order followed
by the final clip/truncate. -/
noncomputable def adjust_pixel (exposure contrast : ℝ) (gains : ℝ × ℝ × ℝ)
    (gamma : ℝ) (px : Pixel) : Pixel :=
  clip_step (gamma_step gamma (contrast_step contrast
    (gains_step gains (exposure_step exposure (castPx px)))))

/-- `apply_adjust` (`exp/tune_video.py` lines 47-82) applied to a whole
frame. -/
noncomputable def apply_adjust (exposure contrast : ℝ) (gains : ℝ × ℝ × ℝ)
    (gamma : ℝ) (im : Frame) : Frame :=
  im.map (List.map (adjust_pixel exposure contrast gains gamma))

/-! ## exp/tune_video.py : frame loop of `main` (lines 107, 112-125) -/

/-- `n_frames = min(n_total, args.limit) if args.limit and args.limit > 0
else n_total` (`exp/tune_video.py` line 107).  The CLI limit is an `int`
that may be zero (the default, meaning all frames) or negative. -/
def n_frames (nTotal : ℕ) (limit : ℤ) : ℕ :=
  if 0 < limit then min nTotal limit.toNat else nTotal

/-- The decode/transform/write loop of `main` (`exp/tune_video.py` lines
112-125): iterate at most `n` times, breaking as soon as `cap.read()`
fails, writing `adj` of each decoded frame. -/
def frame_loop (adj : Frame → Frame) : ℕ → List Frame → List Frame
  | 0, _ => []
  | _ + 1, [] => []
  | n + 1, f :: rest => adj f :: frame_loop adj n rest

/-! ## color.py : in-place overwrite flow (`process_one`, lines 60-105) -/

/-- The three file slots `process_one` touches: the destination
`fpath`, the temporary `.tmp.mp4`, and the backup `.bak.mp4`.  A slot is
`none` when no file exists there; a present file's content is the list
of frames it encodes. -/
structure FS where
  dest : Option (List Frame)
  tmp : Option (List Frame)
  bak : Option (List Frame)

/-- `process_one` (`color.py` lines 60-105) as a state transformer over
the three file slots.  `opened` models `cap.isOpened()`, `w`/`h` the
probed size, `decoded` the frames the source yields, `replaceOk` whether
the backup-then-rename pair succeeds, `haveFF`/`transcodeOk` the
optional H.264 transcode (`tr` is the external transcoder).  Returns the
final file state and the boolean the function returns. -/
noncomputable def process_one (fs : FS) (opened : Bool) (w h : ℤ)
    (decoded : List Frame) (replaceOk haveFF transcodeOk : Bool)
    (tr : List Frame → List Frame) : FS × Bool :=
  if ¬ opened then (fs, false)
  else if w ≤ 0 ∨ h ≤ 0 then (fs, false)
  else
    -- the writer produces the color-fixed frames at the tmp path
    let fs1 : FS := { fs with tmp := some (decoded.map color_fix) }
    if decoded.length = 0 then
      -- `tmp_mp4v.unlink(); return False`
      ({ fs1 with tmp := none }, false)
    else if ¬ replaceOk then
      -- replace failed: rollback from the backup, tmp removed in `finally`
      ({ dest := fs.dest, tmp := none, bak := none }, false)
    else
      -- `fpath.replace(bak); tmp_mp4v.replace(fpath)`, tmp gone
      let fs2 : FS := { dest := fs1.tmp, tmp := none, bak := fs.dest }
      -- optional transcode (failure keeps the mp4v file, no rollback)
      let fs3 : FS :=
        if haveFF ∧ transcodeOk then
          { fs2 with dest := fs2.dest.map tr }
        else fs2
      -- success: delete the backup
      ({ fs3 with bak := none }, true)

/-! ## make_teaser.py : cell size and xstack composition -/

/-- `even(x) = int(math.ceil((x or 0)/2.0)*2)` (`make_teaser.py` lines
44-45). -/
def even (x : ℕ) : ℕ := ⌈(x : ℚ) / 2⌉₊ * 2

/-- Cell size computed once per job in `main` (`make_teaser.py` lines
117-118): `W = even(max(w)); H = even(max(h))` over the probed sizes. -/
def cell_size (sizes : List (ℕ × ℕ)) : ℕ × ℕ :=
  (even ((sizes.map (fun s => s.1)).foldr max 0),
   even ((sizes.map (fun s => s.2)).foldr max 0))

/-- A normalized tile as the compositor sees it; only its duration
matters for the composition semantics. -/
structure Tile where
  dur : ℚ

/-- The encoder invocation `build_xstack` assembles: the tiles in
row-major order, the per-tile pixel offsets `(c*W, r*H)`, the
`-shortest` flag, and the output rate `-r 30`. -/
structure XstackCmd where
  tiles : List Tile
  layout : List (ℕ × ℕ)
  shortest : Bool
  fps : ℕ

/-- `build_xstack` (`make_teaser.py` lines 68-100): assert that the tile
count equals `COLS*ROWS` (modelled as an error value carrying the
expected and actual counts — the assertion aborts before any encoder is
spawned), then build the single encoder command. -/
def build_xstack (cols rows wid hei : ℕ) (inputs : List Tile) :
    Except (ℕ × ℕ) XstackCmd :=
  if inputs.length = cols * rows then
    Except.ok
      { tiles := inputs,
        layout := (List.range rows).flatMap (fun r =>
          (List.range cols).map (fun c => (c * wid, r * hei))),
        shortest := true,
        fps := 30 }
  else Except.error (cols * rows, inputs.length)

/-- Minimum of a list of durations (first element seeds the fold). -/
def list_min : List ℚ → ℚ
  | [] => 0
  | x :: xs => xs.foldl min x

/-- Maximum of a list of durations (first element seeds the fold). -/
def list_max : List ℚ → ℚ
  | [] => 0
  | x :: xs => xs.foldl max x

/-- Modelled from the spec: the external encode sink (spec section 6)
multiplexes the tiles into one output; with the `-shortest` flag the
output terminates when the shortest input ends, without it the output
runs to the longest input.  The sink itself (ffmpeg) is not part of the
repository, so its duration semantics are taken from the spec's
description of the encode sink. -/
def sink_out_dur (cmd : XstackCmd) : ℚ :=
  if cmd.shortest then list_min (cmd.tiles.map Tile.dur)
  else list_max (cmd.tiles.map Tile.dur)

/-! ## Helper lemmas -/

theorem clip_clip (x : ℝ) : clip (clip x 0 255) 0 255 = clip x 0 255 := by
  unfold clip
  have h1 : (0 : ℝ) ≤ min (max x 0) 255 := le_min (le_max_right x 0) (by norm_num)
  rw [max_eq_left h1]
  exact min_eq_left (min_le_right _ _)

theorem map_pixels_id (im : Frame) (f : Pixel → Pixel)
    (h : ∀ px ∈ pixels im, f px = px) : im.map (List.map f) = im := by
  induction im with
  | nil => rfl
  | cons row rest ih =>
    have hrow : List.map f row = row := by
      have h1 : List.map f row = List.map id row :=
        List.map_congr_left (fun a ha =>
          h a (by simp only [pixels, List.flatten_cons]; exact List.mem_append_left _ ha))
      simpa using h1
    have hrest : rest.map (List.map f) = rest :=
      ih (fun px hpx =>
        h px (by
          simp only [pixels, List.flatten_cons]
          exact List.mem_append_right _ hpx))
    show List.map f row :: rest.map (List.map f) = row :: rest
    rw [hrow, hrest]

theorem clip_cast_eq (v : ℕ) (hv : v ≤ 255) : clip ((v : ℕ) : ℝ) 0 255 = (v : ℝ) := by
  unfold clip
  rw [max_eq_left (by positivity)]
  exact min_eq_left (by exact_mod_cast hv)

theorem to_u8_clip_le255 (x : ℝ) : to_u8 (clip x 0 255) ≤ 255 := by
  unfold to_u8 clip
  have h : min (max x 0) 255 ≤ ((255 : ℕ) : ℝ) := by
    push_cast
    exact min_le_right _ _
  calc ⌊min (max x 0) 255⌋₊ ≤ ⌊((255 : ℕ) : ℝ)⌋₊ := Nat.floor_le_floor h
    _ = 255 := Nat.floor_natCast _

theorem frame_loop_eq_take (adj : Frame → Frame) :
    ∀ (n : ℕ) (src : List Frame), frame_loop adj n src = (src.take n).map adj := by
  intro n
  induction n with
  | zero => intro src; simp [frame_loop]
  | succ n ih =>
    intro src
    cases src with
    | nil => simp [frame_loop]
    | cons f rest => simp [frame_loop, ih]

theorem foldl_min_le (xs : List ℚ) : ∀ a : ℚ,
    xs.foldl min a ≤ a ∧ ∀ x ∈ xs, xs.foldl min a ≤ x := by
  induction xs with
  | nil => intro a; simp
  | cons y ys ih =>
    intro a
    refine ⟨le_trans (ih (min a y)).1 (min_le_left _ _), ?_⟩
    intro x hx
    rcases List.mem_cons.mp hx with hx | hx
    · subst hx
      exact le_trans (ih (min a x)).1 (min_le_right _ _)
    · exact (ih (min a y)).2 x hx

theorem foldl_min_mem (xs : List ℚ) : ∀ a : ℚ,
    xs.foldl min a = a ∨ xs.foldl min a ∈ xs := by
  induction xs with
  | nil => intro a; left; rfl
  | cons y ys ih =>
    intro a
    rcases ih (min a y) with h | h
    · rcases min_choice a y with hm | hm
      · left
        show ys.foldl min (min a y) = a
        rw [h, hm]
      · right
        show ys.foldl min (min a y) ∈ y :: ys
        rw [h, hm]
        exact List.mem_cons_self _ _
    · right
      exact List.mem_cons_of_mem _ h

theorem list_min_le_mem (l : List ℚ) : ∀ d ∈ l, list_min l ≤ d := by
  cases l with
  | nil => intro d hd; cases hd
  | cons x xs =>
    intro d hd
    rcases List.mem_cons.mp hd with hd | hd
    · subst hd
      exact (foldl_min_le xs d).1
    · exact (foldl_min_le xs x).2 d hd

theorem list_min_mem (l : List ℚ) (h : l ≠ []) : list_min l ∈ l := by
  cases l with
  | nil => exact absurd rfl h
  | cons x xs =>
    rcases foldl_min_mem xs x with h1 | h1
    · show xs.foldl min x ∈ x :: xs
      rw [h1]
      exact List.mem_cons_self _ _
    · exact List.mem_cons_of_mem _ h1

/-! ## Claims -/

/-- Claim C6: the grid cell size is computed once as the component-wise
ceiling-to-nearest-even of the maximum width and maximum height across
the probed sources; 641 and 361 become 642 and 362, and already-even
dimensions are kept as-is. -/
theorem cell_size_even_ceiling :
    (∀ x : ℕ, even x = if x % 2 = 0 then x else x + 1) ∧
    (∀ sizes : List (ℕ × ℕ),
      cell_size sizes = (even ((sizes.map (fun s => s.1)).foldr max 0),
                         even ((sizes.map (fun s => s.2)).foldr max 0))) ∧
    cell_size [(641, 361)] = (642, 362) ∧
    cell_size [(640, 360)] = (640, 360) := by
  have he : ∀ x : ℕ, even x = if x % 2 = 0 then x else x + 1 := by
    intro x
    rcases Nat.even_or_odd x with ⟨k, hk⟩ | ⟨k, hk⟩
    · subst hk
      rw [if_pos (by omega)]
      unfold even
      have : ((k + k : ℕ) : ℚ) / 2 = (k : ℚ) := by push_cast; ring
      rw [this, Nat.ceil_natCast]
      omega
    · subst hk
      rw [if_neg (by omega)]
      unfold even
      have h2 : ((2 * k + 1 : ℕ) : ℚ) / 2 = (k : ℚ) + 1 / 2 := by push_cast; ring
      have h3 : ⌈(k : ℚ) + 1 / 2⌉₊ = k + 1 := by
        rw [Nat.ceil_eq_iff (by omega)]
        constructor
        · push_cast
          norm_num
        · push_cast
          norm_num
      rw [h2, h3]
      omega
  refine ⟨he, fun sizes => rfl, ?_, ?_⟩
  · show (even 641, even 361) = (642, 362)
    rw [he 641, he 361]
    norm_num
  · show (even 640, even 360) = (640, 360)
    rw [he 640, he 360]
    norm_num

/-- Claim C8: `build_xstack` rejects any tile count different from
`cols*rows` as a fatal configuration error (no command is built), and
proceeds to compose exactly when the count matches. -/
theorem build_xstack_count_guard :
    ∀ (cols rows : ℕ), 1 ≤ cols → 1 ≤ rows → ∀ (wid hei : ℕ) (inputs : List Tile),
      (inputs.length ≠ cols * rows →
        build_xstack cols rows wid hei inputs = Except.error (cols * rows, inputs.length)) ∧
      (inputs.length = cols * rows →
        ∃ cmd, build_xstack cols rows wid hei inputs = Except.ok cmd) := by
  intro cols rows _ _ wid hei inputs
  constructor
  · intro h
    unfold build_xstack
    rw [if_neg h]
  · intro h
    refine ⟨{ tiles := inputs,
              layout := (List.range rows).flatMap (fun r =>
                (List.range cols).map (fun c => (c * wid, r * hei))),
              shortest := true, fps := 30 }, ?_⟩
    unfold build_xstack
    rw [if_pos h]

/-- Witness for C8 at a concrete mismatching input. -/
theorem build_xstack_count_guard_w :
    build_xstack 1 1 2 2 [] = Except.error (1, 0) :=
  (build_xstack_count_guard 1 1 (le_refl 1) (le_refl 1) 2 2 []).1 (by decide)

/-- Claim C7: every composition `build_xstack` builds carries the
shortest-wins flag, so its output duration is the minimum tile duration
(a lower bound of, and attained by, the input durations), not the
maximum. -/
theorem build_xstack_shortest :
    ∀ (cols rows wid hei : ℕ) (inputs : List Tile) (cmd : XstackCmd),
      build_xstack cols rows wid hei inputs = Except.ok cmd →
      sink_out_dur cmd = list_min (inputs.map Tile.dur) ∧
      (∀ t ∈ inputs, list_min (inputs.map Tile.dur) ≤ t.dur) ∧
      (inputs ≠ [] → list_min (inputs.map Tile.dur) ∈ inputs.map Tile.dur) := by
  intro cols rows wid hei inputs cmd h
  by_cases hc : inputs.length = cols * rows
  · unfold build_xstack at h
    rw [if_pos hc] at h
    have hcmd := Except.ok.inj h
    refine ⟨?_, ?_, ?_⟩
    · rw [← hcmd]
      unfold sink_out_dur
      simp
    · intro t ht
      exact list_min_le_mem _ _ (List.mem_map_of_mem Tile.dur ht)
    · intro hne
      exact list_min_mem _ (by simpa using hne)
  · unfold build_xstack at h
    rw [if_neg hc] at h
    cases h

/-- Witness for C7 at a concrete 1-by-1 composition. -/
theorem build_xstack_shortest_w :
    sink_out_dur { tiles := [{ dur := 5 }], layout := [(0, 0)], shortest := true, fps := 30 }
      = list_min (([{ dur := 5 }] : List Tile).map Tile.dur) :=
  (build_xstack_shortest 1 1 2 2 [{ dur := 5 }]
    { tiles := [{ dur := 5 }], layout := [(0, 0)], shortest := true, fps := 30 } rfl).1

/-- Claim C9: the frame loop of `tune_video.main` processes exactly
`min` of the reported frame count and a positive caller limit, and if
the source yields fewer frames it stops cleanly at the number actually
yielded (the written list is the transform mapped over the frames that
exist — no padding, no error). -/
theorem frame_loop_stop_at_min :
    ∀ (adj : Frame → Frame) (nTotal : ℕ) (limit : ℤ) (src : List Frame),
      frame_loop adj (n_frames nTotal limit) src
        = (src.take (n_frames nTotal limit)).map adj ∧
      (frame_loop adj (n_frames nTotal limit) src).length
        = min (n_frames nTotal limit) src.length ∧
      (0 < limit → n_frames nTotal limit = min nTotal limit.toNat) := by
  intro adj nTotal limit src
  refine ⟨frame_loop_eq_take adj _ src, ?_, ?_⟩
  · rw [frame_loop_eq_take]
    simp
  · intro h
    unfold n_frames
    rw [if_pos h]

/-- Witness for C9 at concrete counts and a short source. -/
theorem frame_loop_stop_at_min_w :
    (frame_loop id (n_frames 5 2) [[[(1, 2, 3)]]]).length
      = min (n_frames 5 2) [[[(1, 2, 3)]]].length ∧
    n_frames 5 2 = min 5 (Int.toNat 2) :=
  ⟨(frame_loop_stop_at_min id 5 2 [[[(1, 2, 3)]]]).2.1,
   (frame_loop_stop_at_min id 5 2 [[[(1, 2, 3)]]]).2.2 (by norm_num)⟩

/-- Claim C5: an in-place-overwrite job whose source decodes zero frames
leaves the destination file untouched, removes the temporary output,
and reports failure. -/
theorem process_one_zero_frames :
    ∀ (fs : FS) (w h : ℤ) (replaceOk haveFF transcodeOk : Bool)
      (tr : List Frame → List Frame),
      0 < w → 0 < h →
      (process_one fs true w h [] replaceOk haveFF transcodeOk tr).1.dest = fs.dest ∧
      (process_one fs true w h [] replaceOk haveFF transcodeOk tr).1.tmp = none ∧
      (process_one fs true w h [] replaceOk haveFF transcodeOk tr).2 = false := by
  intro fs w h' rOk hFF tOk tr hw hh
  have hcond : ¬ (w ≤ 0 ∨ h' ≤ 0) := by
    push_neg
    exact ⟨hw, hh⟩
  unfold process_one
  rw [if_neg (by simp), if_neg hcond]
  simp

/-- Witness for C5 at a concrete state. -/
theorem process_one_zero_frames_w :
    (process_one { dest := some [], tmp := none, bak := none } true 1 1 []
        true true true id).1.dest = some [] ∧
    (process_one { dest := some [], tmp := none, bak := none } true 1 1 []
        true true true id).2 = false := by
  have h := process_one_zero_frames { dest := some [], tmp := none, bak := none }
    1 1 true true true id (by norm_num) (by norm_num)
  exact ⟨h.1, h.2.2⟩

/-- Claim C3: with exposure = contrast = gamma = 1 and unit gains,
`apply_adjust` is the identity on every 8-bit frame, pixel-exactly. -/
theorem apply_adjust_identity :
    ∀ im : Frame,
      (∀ px ∈ pixels im, px.1 ≤ 255 ∧ px.2.1 ≤ 255 ∧ px.2.2 ≤ 255) →
      apply_adjust 1 1 (1, 1, 1) 1 im = im := by
  intro im h
  unfold apply_adjust
  apply map_pixels_id
  intro px hpx
  obtain ⟨a, b, c⟩ := px
  obtain ⟨h1, h2, h3⟩ := h (a, b, c) hpx
  unfold adjust_pixel castPx exposure_step gains_step contrast_step gamma_step clip_step
  rw [if_pos rfl, if_pos rfl]
  simp only [mul_one]
  rw [clip_cast_eq a h1, clip_cast_eq b h2, clip_cast_eq c h3]
  unfold to_u8
  rw [Nat.floor_natCast, Nat.floor_natCast, Nat.floor_natCast]

/-- Witness for C3 at a concrete 8-bit frame. -/
theorem apply_adjust_identity_w :
    apply_adjust 1 1 (1, 1, 1) 1 [[(12, 0, 255)]] = [[(12, 0, 255)]] :=
  apply_adjust_identity [[(12, 0, 255)]] (by decide)

/-- Claim C10: for any parameter values (gamma nonzero), `apply_adjust`
is total, preserves the frame's shape, and every output sample is an
8-bit value bounded by 255 (the final clip bounds the output; the gamma
step clips before taking the fractional power). -/
theorem apply_adjust_safe :
    ∀ (e c r g b gamma : ℝ), gamma ≠ 0 → ∀ im : Frame,
      (apply_adjust e c (r, g, b) gamma im).map List.length = im.map List.length ∧
      ∀ px ∈ pixels (apply_adjust e c (r, g, b) gamma im),
        px.1 ≤ 255 ∧ px.2.1 ≤ 255 ∧ px.2.2 ≤ 255 := by
  intro e c r g b gamma hg im
  constructor
  · unfold apply_adjust
    rw [List.map_map]
    simp [Function.comp_def]
  · intro px hpx
    unfold apply_adjust pixels at hpx
    rw [List.mem_flatten] at hpx
    obtain ⟨row1, hrow1, hpxr⟩ := hpx
    rw [List.mem_map] at hrow1
    obtain ⟨row, _, hrow⟩ := hrow1
    rw [← hrow] at hpxr
    rw [List.mem_map] at hpxr
    obtain ⟨q, _, hq⟩ := hpxr
    rw [← hq]
    unfold adjust_pixel clip_step
    exact ⟨to_u8_clip_le255 _, to_u8_clip_le255 _, to_u8_clip_le255 _⟩

/-- Witness for C10 at unusual parameters (negative exposure, zero gain,
gamma 2) on a concrete frame. -/
theorem apply_adjust_safe_w :
    (apply_adjust (-3) 5 (2, 0, 7) 2 [[(0, 10, 255)]]).map List.length
      = [[(0, 10, 255)]].map List.length :=
  (apply_adjust_safe (-3) 5 2 0 7 2 (by norm_num) [[(0, 10, 255)]]).1

/-- Claim C1: on every 3-channel frame `color_fix` returns exactly the
frame given by the spec's formula: per-channel power mean with power 6
and epsilon 1e-6, global target the mean of the three channel means,
scale `target / (m_c + eps)`, output `clip(sample * s_c, 0, 255)`
truncated to 8-bit. -/
theorem color_fix_matches_spec : ∀ im : Frame, color_fix im = color_fix_spec im := by
  intro im
  unfold color_fix color_fix_spec
  refine congrArg (fun F => List.map F im) (congrArg List.map (funext fun px => ?_))
  rw [clip_clip, clip_clip, clip_clip]
  rfl

theorem to_u8_clip_eval (x : ℝ) (n : ℕ) (h0 : 0 ≤ x) (h255 : x ≤ 255)
    (hn : (n : ℝ) ≤ x) (hn1 : x < (n : ℝ) + 1) : to_u8 (clip x 0 255) = n := by
  unfold to_u8 clip
  rw [max_eq_left h0, min_eq_left h255]
  rw [Nat.floor_eq_iff h0]
  exact ⟨hn, hn1⟩

theorem scenario3_eval :
    exposure_step 1.2 (castPx (128, 128, 128)) = ((153.6 : ℝ), (153.6 : ℝ), (153.6 : ℝ)) ∧
    gains_step (1, 1, 1.3) ((153.6 : ℝ), (153.6 : ℝ), (153.6 : ℝ))
      = ((199.68 : ℝ), (153.6 : ℝ), (153.6 : ℝ)) ∧
    contrast_step 1.1 ((199.68 : ℝ), (153.6 : ℝ), (153.6 : ℝ))
      = ((206.848 : ℝ), (156.16 : ℝ), (156.16 : ℝ)) ∧
    gamma_step 1 ((206.848 : ℝ), (156.16 : ℝ), (156.16 : ℝ))
      = ((206.848 : ℝ), (156.16 : ℝ), (156.16 : ℝ)) ∧
    apply_adjust 1.2 1.1 (1, 1, 1.3) 1 [[(128, 128, 128)]] = [[(206, 156, 156)]] := by
  have e1 : exposure_step 1.2 (castPx (128, 128, 128))
      = ((153.6 : ℝ), (153.6 : ℝ), (153.6 : ℝ)) := by
    simp only [exposure_step, castPx, Prod.mk.injEq]
    norm_num
  have e2 : gains_step (1, 1, 1.3) ((153.6 : ℝ), (153.6 : ℝ), (153.6 : ℝ))
      = ((199.68 : ℝ), (153.6 : ℝ), (153.6 : ℝ)) := by
    simp only [gains_step, Prod.mk.injEq]
    norm_num
  have e3 : contrast_step 1.1 ((199.68 : ℝ), (153.6 : ℝ), (153.6 : ℝ))
      = ((206.848 : ℝ), (156.16 : ℝ), (156.16 : ℝ)) := by
    unfold contrast_step
    rw [if_neg (by norm_num)]
    simp only [Prod.mk.injEq]
    norm_num
  have e4 : gamma_step 1 ((206.848 : ℝ), (156.16 : ℝ), (156.16 : ℝ))
      = ((206.848 : ℝ), (156.16 : ℝ), (156.16 : ℝ)) := by
    unfold gamma_step
    rw [if_pos rfl]
  have e5 : apply_adjust 1.2 1.1 (1, 1, 1.3) 1 [[(128, 128, 128)]] = [[(206, 156, 156)]] := by
    unfold apply_adjust adjust_pixel
    simp only [List.map_cons, List.map_nil]
    rw [e1, e2, e3, e4]
    unfold clip_step
    rw [to_u8_clip_eval 206.848 206 (by norm_num) (by norm_num) (by norm_num) (by norm_num),
        to_u8_clip_eval 156.16 156 (by norm_num) (by norm_num) (by norm_num) (by norm_num)]
  exact ⟨e1, e2, e3, e4, e5⟩

/-- Claim C2 counterexample: at the mid-gray pixel with exposure 1.2,
contrast 1.1, gains (1,1,1.3), gamma 1, the contrast step does not give
220.544 on the gained blue channel, and the final pixel is neither
(220,156,156) in buffer order nor (156,156,220): the code produces
206.848 and a final blue sample of 206. -/
theorem apply_adjust_scenario3_cex :
    contrast_step 1.1 (gains_step (1, 1, 1.3) (exposure_step 1.2 (castPx (128, 128, 128))))
      ≠ ((220.544 : ℝ), (156.16 : ℝ), (156.16 : ℝ)) ∧
    apply_adjust 1.2 1.1 (1, 1, 1.3) 1 [[(128, 128, 128)]] ≠ [[(220, 156, 156)]] ∧
    apply_adjust 1.2 1.1 (1, 1, 1.3) 1 [[(128, 128, 128)]] ≠ [[(156, 156, 220)]] := by
  obtain ⟨e1, e2, e3, _, e5⟩ := scenario3_eval
  refine ⟨?_, ?_, ?_⟩
  · rw [e1, e2, e3]
    intro h
    have h1 := congrArg (fun v : ℝ × ℝ × ℝ => v.1) h
    norm_num at h1
  · rw [e5]
    intro h
    simp only [List.cons.injEq, and_true, Prod.mk.injEq] at h
    omega
  · rw [e5]
    intro h
    simp only [List.cons.injEq, and_true, Prod.mk.injEq] at h
    omega

/-- Claim C2 amended: with exposure 1.2, contrast 1.1, gains (1,1,1.3),
gamma 1 on mid-gray (128,128,128): exposure gives 153.6 on every
channel, the blue gain gives 199.68 on the blue channel, the contrast
step around 128 gives (206.848, 156.16, 156.16) in buffer (B,G,R)
order, gamma is skipped, and the final clipped/truncated pixel has
samples 206 (blue), 156, 156 — logical (R,G,B) = (156, 156, 206). -/
theorem apply_adjust_scenario3 :
    exposure_step 1.2 (castPx (128, 128, 128)) = ((153.6 : ℝ), (153.6 : ℝ), (153.6 : ℝ)) ∧
    gains_step (1, 1, 1.3) ((153.6 : ℝ), (153.6 : ℝ), (153.6 : ℝ))
      = ((199.68 : ℝ), (153.6 : ℝ), (153.6 : ℝ)) ∧
    contrast_step 1.1 ((199.68 : ℝ), (153.6 : ℝ), (153.6 : ℝ))
      = ((206.848 : ℝ), (156.16 : ℝ), (156.16 : ℝ)) ∧
    gamma_step 1 ((206.848 : ℝ), (156.16 : ℝ), (156.16 : ℝ))
      = ((206.848 : ℝ), (156.16 : ℝ), (156.16 : ℝ)) ∧
    apply_adjust 1.2 1.1 (1, 1, 1.3) 1 [[(128, 128, 128)]] = [[(206, 156, 156)]] :=
  scenario3_eval

theorem sum_map_const (l : List Pixel) (f : Pixel → ℝ) (c : ℝ)
    (h : ∀ x ∈ l, f x = c) : (l.map f).sum = l.length * c := by
  induction l with
  | nil => simp
  | cons y ys ih =>
    simp only [List.map_cons, List.sum_cons, List.length_cons]
    rw [h y (List.mem_cons_self y ys), ih (fun x hx => h x (List.mem_cons_of_mem _ hx))]
    push_cast
    ring

theorem eps_pow_root : ((1e-6 : ℝ)) ^ ((1 : ℝ) / 6) = 0.1 := by
  have h : (1e-6 : ℝ) = (0.1 : ℝ) ^ (6 : ℝ) := by
    rw [show (6 : ℝ) = ((6 : ℕ) : ℝ) by norm_num, Real.rpow_natCast]
    norm_num
  rw [h, ← Real.rpow_mul (by norm_num : (0 : ℝ) ≤ 0.1),
    show (6 : ℝ) * (1 / 6) = 1 by norm_num, Real.rpow_one]

theorem rpow_six_root (x : ℝ) (hx : 0 ≤ x) : (x ^ (6 : ℝ)) ^ ((1 : ℝ) / 6) = x := by
  rw [← Real.rpow_mul hx, show (6 : ℝ) * (1 / 6) = 1 by norm_num, Real.rpow_one]

theorem root_ge_point_one (t : ℝ) (ht : 0 ≤ t) :
    (0.1 : ℝ) ≤ (t + 1e-6) ^ ((1 : ℝ) / 6) := by
  calc (0.1 : ℝ) = ((1e-6 : ℝ)) ^ ((1 : ℝ) / 6) := eps_pow_root.symm
    _ ≤ _ := Real.rpow_le_rpow (by norm_num) (by linarith) (by norm_num)

theorem root255_ge : (255 : ℝ) ≤ ((255 : ℝ) ^ (6 : ℝ) + 1e-6) ^ ((1 : ℝ) / 6) := by
  calc (255 : ℝ) = ((255 : ℝ) ^ (6 : ℝ)) ^ ((1 : ℝ) / 6) :=
        (rpow_six_root 255 (by norm_num)).symm
    _ ≤ _ := Real.rpow_le_rpow (by positivity)
        (le_add_of_nonneg_right (by norm_num)) (by norm_num)

theorem root_eq_point_one (t : ℝ) (ht : t = 1e-6) : t ^ ((1 : ℝ) / 6) = 0.1 := by
  rw [ht]
  exact eps_pow_root

theorem gray_m_uniform (im : Frame) (v : ℕ) (ch : Pixel → ℕ)
    (hn : 0 < pixCount im) (hch : ∀ px ∈ pixels im, ch px = v) :
    gray_m im ch = ((v : ℝ) ^ (6 : ℝ) + 1e-6) ^ ((1 : ℝ) / 6) := by
  unfold gray_m
  rw [sum_map_const (pixels im) _ ((v : ℝ) ^ (6 : ℝ)) (fun px hpx => by rw [hch px hpx])]
  have hN : ((pixCount im : ℕ) : ℝ) ≠ 0 := Nat.cast_ne_zero.mpr hn.ne'
  rw [show ((pixels im).length : ℝ) = ((pixCount im : ℕ) : ℝ) from rfl,
    mul_div_cancel_left₀ _ hN]

/-- Claim C4 counterexample: the frame whose single pixel is (0,0,255)
in (B,G,R) order has zero variance in every channel, yet `color_fix`
changes it: the red scale is far below 1 and the red sample drops
under 255. -/
theorem color_fix_flat_cex : color_fix [[(0, 0, 255)]] ≠ [[(0, 0, 255)]] := by
  have hpix : pixels [[(0, 0, 255)]] = [(0, 0, 255)] := rfl
  have hcount : pixCount [[(0, 0, 255)]] = 1 := rfl
  have hB : gray_m [[(0, 0, 255)]] (fun q => q.1) = 0.1 := by
    unfold gray_m
    rw [hpix, hcount]
    apply root_eq_point_one
    norm_num [Real.zero_rpow]
  have hG : gray_m [[(0, 0, 255)]] (fun q => q.2.1) = 0.1 := by
    unfold gray_m
    rw [hpix, hcount]
    apply root_eq_point_one
    norm_num [Real.zero_rpow]
  have hR : gray_m [[(0, 0, 255)]] (fun q => q.2.2)
      = ((255 : ℝ) ^ (6 : ℝ) + 1e-6) ^ ((1 : ℝ) / 6) := by
    unfold gray_m
    rw [hpix, hcount]
    congr 1
    norm_num
  have hMR : (255 : ℝ) ≤ ((255 : ℝ) ^ (6 : ℝ) + 1e-6) ^ ((1 : ℝ) / 6) := root255_ge
  have hsR : gray_scale [[(0, 0, 255)]] (fun q => q.2.2) < 1 := by
    unfold gray_scale
    rw [hB, hG, hR]
    rw [div_lt_one (by linarith)]
    linarith
  have hsR0 : 0 ≤ gray_scale [[(0, 0, 255)]] (fun q => q.2.2) := by
    unfold gray_scale
    rw [hB, hG, hR]
    apply div_nonneg
    · apply div_nonneg <;> linarith
    · linarith
  intro h
  unfold color_fix at h
  simp only [List.map_cons, List.map_nil, List.cons.injEq, and_true, Prod.mk.injEq,
    Nat.cast_zero, Nat.cast_ofNat] at h
  obtain ⟨-, -, hr⟩ := h
  have hx : (255 : ℝ) * gray_scale [[(0, 0, 255)]] (fun q => q.2.2) < 255 := by nlinarith
  have hx0 : 0 ≤ (255 : ℝ) * gray_scale [[(0, 0, 255)]] (fun q => q.2.2) :=
    mul_nonneg (by norm_num) hsR0
  have hclip : clip (clip ((255 : ℝ) * gray_scale [[(0, 0, 255)]] (fun q => q.2.2)) 0 255) 0 255
      = (255 : ℝ) * gray_scale [[(0, 0, 255)]] (fun q => q.2.2) := by
    rw [clip_clip]
    unfold clip
    rw [max_eq_left hx0, min_eq_left (le_of_lt hx)]
  rw [hclip] at hr
  unfold to_u8 at hr
  have hlt : ⌊(255 : ℝ) * gray_scale [[(0, 0, 255)]] (fun q => q.2.2)⌋₊ < 255 :=
    (Nat.floor_lt hx0).mpr (by exact_mod_cast hx)
  omega

/-- Claim C4 amended: for every nonempty frame all of whose pixels have
the three channels equal (a uniform gray flat frame), each channel's
gray-world scale lies in [1 - 1e-5, 1] — approximately 1 within the
epsilon-bounded tolerance — and the all-black frame comes out exactly
unchanged rather than causing a divide blow-up. -/
theorem color_fix_uniform_gray :
    ∀ (im : Frame) (v : ℕ), 0 < pixCount im →
      (∀ px ∈ pixels im, px = (v, v, v)) →
      (1 - 1e-5 ≤ gray_scale im (fun q => q.1) ∧ gray_scale im (fun q => q.1) ≤ 1) ∧
      (1 - 1e-5 ≤ gray_scale im (fun q => q.2.1) ∧ gray_scale im (fun q => q.2.1) ≤ 1) ∧
      (1 - 1e-5 ≤ gray_scale im (fun q => q.2.2) ∧ gray_scale im (fun q => q.2.2) ≤ 1) ∧
      (v = 0 → color_fix im = im) := by
  intro im v hn hu
  have hB : gray_m im (fun q => q.1) = ((v : ℝ) ^ (6 : ℝ) + 1e-6) ^ ((1 : ℝ) / 6) :=
    gray_m_uniform im v _ hn (fun px hpx => by rw [hu px hpx])
  have hG : gray_m im (fun q => q.2.1) = ((v : ℝ) ^ (6 : ℝ) + 1e-6) ^ ((1 : ℝ) / 6) :=
    gray_m_uniform im v _ hn (fun px hpx => by rw [hu px hpx])
  have hR : gray_m im (fun q => q.2.2) = ((v : ℝ) ^ (6 : ℝ) + 1e-6) ^ ((1 : ℝ) / 6) :=
    gray_m_uniform im v _ hn (fun px hpx => by rw [hu px hpx])
  have hM : (0.1 : ℝ) ≤ ((v : ℝ) ^ (6 : ℝ) + 1e-6) ^ ((1 : ℝ) / 6) :=
    root_ge_point_one _ (by positivity)
  have hscale : ∀ ch : Pixel → ℕ,
      gray_m im ch = ((v : ℝ) ^ (6 : ℝ) + 1e-6) ^ ((1 : ℝ) / 6) →
      gray_scale im ch = ((v : ℝ) ^ (6 : ℝ) + 1e-6) ^ ((1 : ℝ) / 6)
        / (((v : ℝ) ^ (6 : ℝ) + 1e-6) ^ ((1 : ℝ) / 6) + 1e-6) := by
    intro ch hch
    unfold gray_scale
    rw [hB, hG, hR, hch]
    congr 1
    ring
  have bounds :
      1 - 1e-5 ≤ ((v : ℝ) ^ (6 : ℝ) + 1e-6) ^ ((1 : ℝ) / 6)
        / (((v : ℝ) ^ (6 : ℝ) + 1e-6) ^ ((1 : ℝ) / 6) + 1e-6) ∧
      ((v : ℝ) ^ (6 : ℝ) + 1e-6) ^ ((1 : ℝ) / 6)
        / (((v : ℝ) ^ (6 : ℝ) + 1e-6) ^ ((1 : ℝ) / 6) + 1e-6) ≤ 1 := by
    constructor
    · rw [le_div_iff₀ (by linarith)]
      nlinarith [hM]
    · rw [div_le_one (by linarith)]
      linarith
  refine ⟨?_, ?_, ?_, ?_⟩
  · rw [hscale _ hB]
    exact bounds
  · rw [hscale _ hG]
    exact bounds
  · rw [hscale _ hR]
    exact bounds
  · intro hv
    subst hv
    unfold color_fix
    apply map_pixels_id
    intro px hpx
    rw [hu px hpx]
    have hz : ∀ s : ℝ, to_u8 (clip (clip (((0 : ℕ) : ℝ) * s) 0 255) 0 255) = 0 := by
      intro s
      rw [Nat.cast_zero, zero_mul]
      unfold clip to_u8
      norm_num [min_def, max_def]
    simp only [hz]

/-- Witness for C4's amended claim at the all-black one-pixel frame. -/
theorem color_fix_uniform_gray_w :
    color_fix [[(0, 0, 0)]] = [[(0, 0, 0)]] :=
  (color_fix_uniform_gray [[(0, 0, 0)]] 0 (by decide) (by decide)).2.2.2 rfl
